import Mathlib

/-!
Verification of the round-based application state machine framework of the
open-autonomy repository: the `reset_pause_abci` rounds, the abstract ABCI
handler, and the `registration_abci` startup behaviour, shallowly embedded
in Lean.  Helper classes from `abstract_round_abci.base` (the synchronized
state store `StateDB`, `BasePeriodState` and the threshold machinery of
`CollectSameUntilThresholdRound`) are not part of the excerpted sources and
are modelled from the specification, as indicated in their doc comments.
-/

/-- Values stored in the synchronized key/value store.  `vnull` models the
Python `None`, `vnat` an integer, `vstr` a string, `vaddrs` a collection of
agent addresses (the values of the `participants` / `all_participants`
keys). -/
inductive Value where
  | vnull : Value
  | vnat : Nat → Value
  | vstr : String → Value
  | vaddrs : List String → Value
  deriving DecidableEq, Repr

/-- Association-list lookup returning the first binding of a key, the
semantics of reading a Python `dict`. -/
def alookup (k : String) : List (String × Value) → Option Value
  | [] => none
  | kv :: rest => if kv.1 = k then some kv.2 else alookup k rest

/-- Set a key in an association list the way a Python `dict` assignment
does: overwrite the existing binding in place, or append a fresh binding at
the end. -/
def aset (d : List (String × Value)) (k : String) (v : Value) :
    List (String × Value) :=
  match d with
  | [] => [(k, v)]
  | kv :: rest =>
    if kv.1 = k then (k, v) :: rest else kv :: aset rest k v

/-- Modelled from the spec: the synchronized state store (`StateDB` of
`abstract_round_abci.base`, not among the excerpted sources).  It keeps the
current period count, the current period's key/value data, and the
explicitly enumerated list of cross-period-persisted keys (spec section
4.1 and the data model of section 3). -/
structure StateDB where
  periodCount : Nat
  data : List (String × Value)
  crossPeriodPersistedKeys : List String
  deriving DecidableEq, Repr

/-- Database errors surfaced by strict reads. -/
inductive DbError where
  | keyNotFound : String → DbError
  deriving DecidableEq, Repr

/-- Modelled from the spec: `get_all` returns the current period's data
(section 4.1). -/
def StateDB.getAll (db : StateDB) : List (String × Value) := db.data

/-- Modelled from the spec: `get_strict(key)` returns the value, failing
with a key-not-found error when the key is absent (section 4.1). -/
def StateDB.getStrict (db : StateDB) (k : String) : Except DbError Value :=
  match alookup k db.data with
  | some v => .ok v
  | none => .error (.keyNotFound k)

/-- Modelled from the spec: the period state wrapping the store
(`BasePeriodState` of `abstract_round_abci.base`). -/
structure BasePeriodState where
  db : StateDB
  deriving DecidableEq, Repr

/-- Modelled from the spec: the `participants` property reads the
`participants` key of the store; the spec's data-model invariant (section
3) has it populated for every round, which the theorems below state as a
hypothesis where it matters. -/
def participantsOf (s : BasePeriodState) : List String :=
  match alookup "participants" s.db.data with
  | some (.vaddrs l) => l
  | _ => []

/-- Modelled from the spec: the `all_participants` property reads the
`all_participants` key of the store. -/
def allParticipantsOf (s : BasePeriodState) : List String :=
  match alookup "all_participants" s.db.data with
  | some (.vaddrs l) => l
  | _ => []

/-- Modelled from the spec: `nb_participants = |participants|` (section
3). -/
def nbParticipants (s : BasePeriodState) : Nat := (participantsOf s).length

/-- Modelled from the spec: `update(**kwargs)` returns a new snapshot.
Without a new period count it layers the given keys over the previous
snapshot (section 4.1); with a new period count it starts the new period
from exactly the given keys, so that on period reset only the values the
caller passes — in particular the enumerated persisted keys — survive
(section 4.1, "On period reset, only keys named in the persisted-key list
survive"). -/
def updateState (s : BasePeriodState) (newPeriod : Option Nat)
    (kwargs : List (String × Value)) : BasePeriodState :=
  match newPeriod with
  | none =>
    { db := { s.db with data := kwargs.foldl (fun d kv => aset d kv.1 kv.2) s.db.data } }
  | some pc =>
    { db := { periodCount := pc, data := kwargs,
              crossPeriodPersistedKeys := s.db.crossPeriodPersistedKeys } }

/-- The transaction payload of the `reset_pause_abci` skill: a sender
address and the `period_count` field named by `payload_attribute`. -/
structure ResetPayload where
  sender : String
  periodCount : Nat
  deriving DecidableEq, Repr

/-- The mutable state of a collection round: the collection mapping senders
to their payloads (embedded as the list of accepted payloads, keyed by
`ResetPayload.sender`, in insertion order like a Python `dict`), and the
period state snapshot. -/
structure RoundState where
  collection : List ResetPayload
  periodState : BasePeriodState
  deriving DecidableEq, Repr

/-- The senders that already have a payload recorded in the collection. -/
def senders (r : RoundState) : List String := r.collection.map (·.sender)

/-- Modelled from the spec: the number of payloads in the collection that
agree with value `v` on the attribute named by `payload_attribute`
(`period_count` here) — payloads are grouped by equality of that attribute
(section 4.2). -/
def votesFor (c : List ResetPayload) (v : Nat) : Nat :=
  c.countP (fun p => p.periodCount = v)

/-- Modelled from the spec: `threshold_reached` is true when some payload
value is shared by strictly more than two thirds of `nb_participants`
senders (sections 4.2 and 8). -/
def thresholdReached (c : List ResetPayload) (n : Nat) : Bool :=
  c.any (fun p => 2 * n < 3 * votesFor c p.periodCount)

/-- Size of the largest payload group in the collection. -/
def largestCount (c : List ResetPayload) : Nat :=
  (c.map (fun p => votesFor c p.periodCount)).foldr Nat.max 0

/-- One step of the maximal-count scan: keep the current best unless the
next value has a strictly larger count. -/
def argmaxStep (cnt : Nat → Nat) (acc : Option Nat) (v : Nat) : Option Nat :=
  match acc with
  | none => some v
  | some w => if cnt w < cnt v then some v else some w

/-- First value in the list attaining the maximal count — the tie-breaking
behaviour of `collections.Counter.most_common`, which prefers earlier
insertion. -/
def argmaxCount (cnt : Nat → Nat) (l : List Nat) : Option Nat :=
  l.foldl (argmaxStep cnt) none

/-- Modelled from the spec: `most_voted_payload`, the attribute value of
the largest payload group, meaningful only when the threshold is reached
(section 4.2). -/
def mostVoted (c : List ResetPayload) : Option Nat :=
  argmaxCount (votesFor c) (c.map (·.periodCount))

/-- Modelled from the spec: `is_majority_possible` — a majority is still
possible exactly when the currently largest group, joined by every
remaining non-responding participant, could still exceed the two-thirds
quorum (sections 4.2 and 8). -/
def isMajorityPossible (c : List ResetPayload) (n : Nat) : Bool :=
  2 * n < 3 * (largestCount c + (n - c.length))

/-- Event enumeration of the `reset_pause_abci` application
(`rounds.py`). -/
inductive RPEvent where
  | DONE | ROUND_TIMEOUT | NO_MAJORITY | RESET_TIMEOUT
  deriving DecidableEq, Repr

/-- Errors raised by payload validation and processing
(`TransactionNotValidError` and `ABCIAppInternalError`). -/
inductive RoundError where
  | transactionNotValid : RoundError
  | abciAppInternal : RoundError
  deriving DecidableEq, Repr

/-- Check of `ResetAndPauseRound.check_payload` (`rounds.py`, lines
99-111): raise `TransactionNotValidError` when the sender is not among
`all_participants`, or when the sender already has a payload in the
collection; otherwise succeed.  The returned round state models the state
after the call (validation never mutates), paired with the outcome. -/
def checkPayload (r : RoundState) (p : ResetPayload) :
    RoundState × Except RoundError Unit :=
  if p.sender ∈ allParticipantsOf r.periodState then
    if p.sender ∈ senders r then
      (r, .error .transactionNotValid)
    else
      (r, .ok ())
  else
    (r, .error .transactionNotValid)

/-- Processing of `ResetAndPauseRound.process_payload` (`rounds.py`, lines
83-97): raise `ABCIAppInternalError` under the same two conditions as
`check_payload`; on success record `collection[sender] = payload` (a fresh
`dict` key is appended at the end).  The returned round state models the
state after the call: it is unchanged whenever an error is raised, because
the assignment is the last statement. -/
def processPayload (r : RoundState) (p : ResetPayload) :
    RoundState × Except RoundError Unit :=
  if p.sender ∈ allParticipantsOf r.periodState then
    if p.sender ∈ senders r then
      (r, .error .abciAppInternal)
    else
      ({ r with collection := r.collection ++ [p] }, .ok ())
  else
    (r, .error .abciAppInternal)

/-- End-of-block decision of `ResetRound.end_block` (`rounds.py`, lines
59-73): when the threshold is reached, take a copy of all current store
data, set `tx_hashes_history` to `None`, and build the next period state
from it with `period_count = most_voted_payload`, emitting `DONE`; when a
majority is no longer possible, return the unchanged period state with
`NO_MAJORITY`; otherwise no decision. -/
def resetEndBlock (r : RoundState) : Option (BasePeriodState × RPEvent) :=
  let n := nbParticipants r.periodState
  if thresholdReached r.collection n then
    let stateData := aset r.periodState.db.getAll "tx_hashes_history" .vnull
    let st := updateState r.periodState (some ((mostVoted r.collection).getD 0)) stateData
    some (st, .DONE)
  else if !isMajorityPossible r.collection n then
    some (r.periodState, .NO_MAJORITY)
  else
    none

/-- Strict lookup of every listed key, in order, propagating the first
key-not-found error — the loop over `cross_period_persisted_keys` in
`ResetAndPauseRound.end_block`. -/
def collectStrict (db : StateDB) : List String → Except DbError (List (String × Value))
  | [] => .ok []
  | k :: ks =>
    match db.getStrict k with
    | .error e => .error e
    | .ok v =>
      match collectStrict db ks with
      | .error e => .error e
      | .ok rest => .ok ((k, v) :: rest)

/-- End-of-block decision of `ResetAndPauseRound.end_block` (`rounds.py`,
lines 113-130): when the threshold is reached, read every
cross-period-persisted key strictly and build the next period state from
`participants`, `all_participants` and those keys only, with
`period_count = most_voted_payload`, emitting `DONE`; when a majority is no
longer possible, return the unchanged period state with `NO_MAJORITY`;
otherwise no decision.  A missing persisted key propagates the strict-read
error. -/
def resetAndPauseEndBlock (r : RoundState) :
    Except DbError (Option (BasePeriodState × RPEvent)) :=
  let n := nbParticipants r.periodState
  if thresholdReached r.collection n then
    match collectStrict r.periodState.db r.periodState.db.crossPeriodPersistedKeys with
    | .error e => .error e
    | .ok extra =>
      let kwargs :=
        ("participants", Value.vaddrs (participantsOf r.periodState)) ::
        ("all_participants", Value.vaddrs (allParticipantsOf r.periodState)) :: extra
      let st := updateState r.periodState (some ((mostVoted r.collection).getD 0)) kwargs
      .ok (some (st, .DONE))
  else if !isMajorityPossible r.collection n then
    .ok (some (r.periodState, .NO_MAJORITY))
  else
    .ok none

/-- Sample period state used to instantiate hypothesis-carrying theorems on
concrete inputs: four participants, one ephemeral key, no persisted
keys. -/
def psSample : BasePeriodState :=
  { db := { periodCount := 0,
            data := [("participants", .vaddrs ["a", "b", "c", "d"]),
                     ("all_participants", .vaddrs ["a", "b", "c", "d"]),
                     ("foo", .vnat 7)],
            crossPeriodPersistedKeys := [] } }

/-- C3: `check_payload` fails with `TransactionNotValidError` exactly when
the sender is outside `all_participants` or already has a recorded payload;
`process_payload` fails with `ABCIAppInternalError` under exactly the same
two conditions, and on success appends `collection[sender] = payload`. -/
theorem payload_validation_exact_conditions (r : RoundState) (p : ResetPayload) :
    ((checkPayload r p).2 = .error .transactionNotValid ↔
      (p.sender ∉ allParticipantsOf r.periodState ∨ p.sender ∈ senders r))
    ∧ ((processPayload r p).2 = .error .abciAppInternal ↔
      (p.sender ∉ allParticipantsOf r.periodState ∨ p.sender ∈ senders r))
    ∧ ((p.sender ∈ allParticipantsOf r.periodState ∧ p.sender ∉ senders r) →
      processPayload r p = ({ r with collection := r.collection ++ [p] }, .ok ())) := by
  by_cases h1 : p.sender ∈ allParticipantsOf r.periodState <;>
    by_cases h2 : p.sender ∈ senders r <;>
      simp [checkPayload, processPayload, h1, h2]

/-- Witness for C3 at a concrete input: the sender `e` is not a
participant, so both validation paths report their respective errors. -/
theorem payload_validation_exact_conditions_witness :
    (processPayload { collection := [], periodState := psSample }
      { sender := "e", periodCount := 1 }).2 = .error .abciAppInternal :=
  (payload_validation_exact_conditions
    { collection := [], periodState := psSample }
    { sender := "e", periodCount := 1 }).2.1.mpr (Or.inl (by decide))

/-- C5: a second payload from a sender already in the collection is
rejected by both `check_payload` (with `TransactionNotValidError`) and
`process_payload` (with `ABCIAppInternalError`) and leaves the round state
— in particular the collection — exactly as it was; `check_payload` never
mutates the round state on any input. -/
theorem double_submission_rejected_no_mutation (r : RoundState) (p : ResetPayload) :
    (checkPayload r p).1 = r
    ∧ (p.sender ∈ senders r →
        (checkPayload r p).2 = .error .transactionNotValid
        ∧ (processPayload r p).2 = .error .abciAppInternal
        ∧ (processPayload r p).1 = r) := by
  by_cases h1 : p.sender ∈ allParticipantsOf r.periodState <;>
    by_cases h2 : p.sender ∈ senders r <;>
      simp [checkPayload, processPayload, h1, h2]

/-- Witness for C5 at a concrete input: sender `a` submits a second payload
and both paths reject it without touching the collection. -/
theorem double_submission_rejected_no_mutation_witness :
    (processPayload
      { collection := [{ sender := "a", periodCount := 1 }], periodState := psSample }
      { sender := "a", periodCount := 2 }).1 =
      { collection := [{ sender := "a", periodCount := 1 }], periodState := psSample } :=
  ((double_submission_rejected_no_mutation
    { collection := [{ sender := "a", periodCount := 1 }], periodState := psSample }
    { sender := "a", periodCount := 2 }).2 (by decide)).2.2

/-- Test whether the first list is an initial segment of the second,
character by character. -/
def startsWithL : List Char → List Char → Bool
  | [], _ => true
  | _ :: _, [] => false
  | a :: as, b :: bs => a = b && startsWithL as bs

/-- Substring containment over character lists, the semantics of the Python
`in` operator on strings. -/
def containsSub (needle : List Char) : List Char → Bool
  | [] => needle.isEmpty
  | c :: rest => startsWithL needle (c :: rest) || containsSub needle rest

/-- Fuel-driven worker for pattern replacement; the fuel only serves as a
structural termination measure and is always supplied as the length of the
text, which one replacement step can never exhaust for a non-empty
pattern. -/
def replaceAllFuel (needle repl : List Char) : Nat → List Char → List Char
  | _, [] => []
  | 0, hay => hay
  | fuel + 1, c :: rest =>
    if startsWithL needle (c :: rest) then
      repl ++ replaceAllFuel needle repl fuel (List.drop (needle.length - 1) rest)
    else
      c :: replaceAllFuel needle repl fuel rest

/-- Left-to-right, non-overlapping replacement of every occurrence of a
non-empty pattern, the semantics of Python `str.replace` (the handler only
ever calls it with the pattern `request_`). -/
def replaceAll (needle repl : List Char) (hay : List Char) : List Char :=
  if needle = [] then hay else replaceAllFuel needle repl hay.length hay

/-- Request kinds for which `ABCIHandler` defines a handler method
(`handlers.py`: `info`, `flush`, `init_chain`, `query`, `check_tx`,
`deliver_tx`, `begin_block`, `end_block`, `commit`). -/
def handlerMethodNames : List String :=
  ["info", "flush", "init_chain", "query", "check_tx", "deliver_tx",
   "begin_block", "end_block", "commit"]

/-- Request-kind tag obtained from a performative name by deleting the
`request_` marker, as `ABCIHandler.handle` does. -/
def requestTypeOf (performative : String) : List Char :=
  replaceAll "request_".toList [] performative.toList

/-- Whether `getattr(self, request_type, None)` finds a handler method for
the message's request kind. -/
def hasHandlerMethod (performative : String) : Bool :=
  handlerMethodNames.any (fun m => m.toList = requestTypeOf performative)

/-- Whether the performative value contains `response_`, the test
`ABCIHandler.handle` uses to recognize messages of response type. -/
def isResponsePerformative (performative : String) : Bool :=
  containsSub "response_".toList performative.toList

/-- Observable outcome of `ABCIHandler.handle`: an exception response (the
`send_exception` path, carrying a human-readable error string), a normal
response produced by the named handler method, or no reply at all (the
`ignoring...` warning path). -/
inductive HandleOutcome where
  | exceptionReply : String → HandleOutcome
  | handledReply : List Char → HandleOutcome
  | ignored : HandleOutcome
  deriving DecidableEq, Repr

/-- Dispatch logic of `ABCIHandler.handle` (`handlers.py`, lines 44-83):
an unrecoverable dialogue sends an exception reply; a performative
containing `response_` sends an exception reply; otherwise the `request_`
marker is stripped and, when a handler method of that name exists, its
response is sent, while an unknown request kind is only logged and no
reply is produced. -/
def abciHandle (dialogueValid : Bool) (performative : String) : HandleOutcome :=
  if !dialogueValid then .exceptionReply "Invalid dialogue."
  else if isResponsePerformative performative then
    .exceptionReply ("can only handle ABCI requests, received " ++ performative)
  else if hasHandlerMethod performative then
    .handledReply (requestTypeOf performative)
  else
    .ignored

/-- C1 counterexample: the protocol's `request_echo` performative names a
request kind for which `ABCIHandler` has no method; `handle` ignores the
message — it produces no reply at all, in particular no exception
response. -/
theorem abciHandle_unknown_request_ignored :
    abciHandle true "request_echo" = .ignored := by
  rfl

/-- C1 amended: `ABCIHandler.handle` sends an exception response exactly
for an unrecoverable dialogue or a performative containing `response_`; a
request performative with a handler method is answered by that method,
while a request kind without a method is only logged and the message is
dropped without any reply. -/
theorem abciHandle_exception_policy (d : Bool) (p : String) :
    ((∃ e, abciHandle d p = .exceptionReply e) ↔
      (d = false ∨ isResponsePerformative p = true))
    ∧ (d = true → isResponsePerformative p = false →
        (hasHandlerMethod p = true → abciHandle d p = .handledReply (requestTypeOf p))
        ∧ (hasHandlerMethod p = false → abciHandle d p = .ignored)) := by
  cases d <;>
    by_cases hresp : isResponsePerformative p <;>
      by_cases hmeth : hasHandlerMethod p <;>
        simp [abciHandle, hresp, hmeth]

/-- Witness for C1 at a concrete input: a well-formed `request_info`
message with a valid dialogue is dispatched to the `info` method. -/
theorem abciHandle_exception_policy_witness :
    abciHandle true "request_info" = .handledReply (requestTypeOf "request_info") :=
  ((abciHandle_exception_policy true "request_info").2 rfl (by decide)).1 (by decide)

/-- Response shape shared by `check_tx` and `deliver_tx` replies: status
code, byte payload, log and info strings, gas-accounting fields, events
and codespace. -/
structure AbciTxResponse where
  code : Nat
  data : List UInt8
  log : String
  info : String
  gasWanted : Int
  gasUsed : Int
  events : List String
  codespace : String
  deriving DecidableEq, Repr

/-- An incoming ABCI message, reduced to the parts the abstract handler can
observe: its performative, its sender and the raw transaction bytes. -/
structure AbciMessageModel where
  performative : String
  sender : String
  tx : List UInt8
  deriving DecidableEq, Repr

/-- Reply of `ABCIHandler.check_tx` (`handlers.py`, lines 191-213): a
`RESPONSE_CHECK_TX` with status code `0` (OK), empty data and empty
bookkeeping fields, whatever the message contains. -/
def checkTxReply (_m : AbciMessageModel) : AbciTxResponse :=
  { code := 0, data := [], log := "", info := "",
    gasWanted := 0, gasUsed := 0, events := [], codespace := "" }

/-- Reply of `ABCIHandler.deliver_tx` (`handlers.py`, lines 215-237): a
`RESPONSE_DELIVER_TX` with status code `0` (OK), empty data and empty
bookkeeping fields, whatever the message contains. -/
def deliverTxReply (_m : AbciMessageModel) : AbciTxResponse :=
  { code := 0, data := [], log := "", info := "",
    gasWanted := 0, gasUsed := 0, events := [], codespace := "" }

/-- C10: the abstract handler accepts every transaction — `check_tx` and
`deliver_tx` always reply with status code `0` (OK) and empty data,
regardless of message content. -/
theorem abstract_handler_accepts_every_tx (m : AbciMessageModel) :
    (checkTxReply m).code = 0 ∧ (checkTxReply m).data = []
    ∧ (deliverTxReply m).code = 0 ∧ (deliverTxReply m).data = [] := by
  exact ⟨rfl, rfl, rfl, rfl⟩

theorem alookup_aset_self (d : List (String × Value)) (k : String) (v : Value) :
    alookup k (aset d k v) = some v := by
  induction d with
  | nil => simp [aset, alookup]
  | cons kv rest ih =>
    by_cases h : kv.1 = k <;> simp [aset, alookup, h, ih]

theorem alookup_aset_ne (d : List (String × Value)) (k k' : String) (v : Value)
    (h : k' ≠ k) : alookup k' (aset d k v) = alookup k' d := by
  have h1 : ¬(k = k') := fun hh => h hh.symm
  induction d with
  | nil => simp [aset, alookup, h1]
  | cons kv rest ih =>
    by_cases hk : kv.1 = k
    · have h2 : ¬(kv.1 = k') := by rw [hk]; exact h1
      simp [aset, alookup, hk, h1, h2]
    · by_cases hk' : kv.1 = k' <;> simp [aset, alookup, hk, hk', h, ih]

theorem alookup_eq_none_of_not_mem (k : String) (l : List (String × Value))
    (h : k ∉ l.map Prod.fst) : alookup k l = none := by
  induction l with
  | nil => rfl
  | cons kv rest ih =>
    simp only [List.map_cons, List.mem_cons] at h
    push_neg at h
    have hne : ¬(kv.1 = k) := fun hh => h.1 hh.symm
    simp [alookup, hne, ih h.2]

theorem getStrict_ok_lookup (db : StateDB) (k : String) (v : Value)
    (h : db.getStrict k = .ok v) : alookup k db.data = some v := by
  unfold StateDB.getStrict at h
  cases hl : alookup k db.data <;> simp [hl] at h <;> simp [h]

theorem collectStrict_ok_mem_lookup (db : StateDB) :
    ∀ ks pairs, collectStrict db ks = .ok pairs →
      ∀ k ∈ ks, alookup k pairs = alookup k db.data := by
  intro ks
  induction ks with
  | nil => simp
  | cons k0 ks ih =>
    intro pairs h k hk
    cases hv : db.getStrict k0 with
    | error e => simp [collectStrict, hv] at h
    | ok v =>
      cases hrest : collectStrict db ks with
      | error e => simp [collectStrict, hv, hrest] at h
      | ok rest =>
        simp only [collectStrict, hv, hrest, Except.ok.injEq] at h
        subst h
        by_cases hke : k0 = k
        · subst hke
          simp [alookup, getStrict_ok_lookup db k0 v hv]
        · have hks : k ∈ ks := by
            rcases List.mem_cons.mp hk with hk0 | hks
            · exact absurd hk0.symm hke
            · exact hks
          simp only [alookup, hke, if_false]
          exact ih rest hrest k hks

theorem collectStrict_ok_keys (db : StateDB) :
    ∀ ks pairs, collectStrict db ks = .ok pairs → pairs.map Prod.fst = ks := by
  intro ks
  induction ks with
  | nil => intro pairs h; simp [collectStrict] at h; simp [← h]
  | cons k0 ks ih =>
    intro pairs h
    cases hv : db.getStrict k0 with
    | error e => simp [collectStrict, hv] at h
    | ok v =>
      cases hrest : collectStrict db ks with
      | error e => simp [collectStrict, hv, hrest] at h
      | ok rest =>
        simp only [collectStrict, hv, hrest, Except.ok.injEq] at h
        subst h
        simp [ih rest hrest]

/-- C2: decision policy of `ResetRound.end_block` and
`ResetAndPauseRound.end_block`, evaluated in order: on `threshold_reached`
an updated period state whose period count is `most_voted_payload` (for the
final-stage round with every cross-period-persisted key carried verbatim)
paired with `DONE`; else, when a majority is no longer possible, the
unchanged period state paired with `NO_MAJORITY`; else no decision.  The
two membership hypotheses rule out a persisted-key list clashing with the
explicit `participants` keyword arguments, which would make the Python
call itself ill-formed. -/
theorem end_block_decision_policy (r : RoundState)
    (hp : "participants" ∉ r.periodState.db.crossPeriodPersistedKeys)
    (ha : "all_participants" ∉ r.periodState.db.crossPeriodPersistedKeys) :
    (thresholdReached r.collection (nbParticipants r.periodState) = true →
      (∃ st, resetEndBlock r = some (st, .DONE)
          ∧ st.db.periodCount = (mostVoted r.collection).getD 0)
      ∧ ∀ pairs,
          collectStrict r.periodState.db r.periodState.db.crossPeriodPersistedKeys = .ok pairs →
          ∃ st, resetAndPauseEndBlock r = .ok (some (st, .DONE))
            ∧ st.db.periodCount = (mostVoted r.collection).getD 0
            ∧ ∀ k ∈ r.periodState.db.crossPeriodPersistedKeys,
                alookup k st.db.data = alookup k r.periodState.db.data)
    ∧ (thresholdReached r.collection (nbParticipants r.periodState) = false →
        isMajorityPossible r.collection (nbParticipants r.periodState) = false →
        resetEndBlock r = some (r.periodState, .NO_MAJORITY)
        ∧ resetAndPauseEndBlock r = .ok (some (r.periodState, .NO_MAJORITY)))
    ∧ (thresholdReached r.collection (nbParticipants r.periodState) = false →
        isMajorityPossible r.collection (nbParticipants r.periodState) = true →
        resetEndBlock r = none ∧ resetAndPauseEndBlock r = .ok none) := by
  refine ⟨fun hth => ⟨?_, ?_⟩, fun hth hmaj => ?_, fun hth hmaj => ?_⟩
  · refine ⟨updateState r.periodState (some ((mostVoted r.collection).getD 0))
      (aset r.periodState.db.getAll "tx_hashes_history" .vnull), ?_, rfl⟩
    simp [resetEndBlock, hth]
  · intro pairs hpairs
    refine ⟨updateState r.periodState (some ((mostVoted r.collection).getD 0))
      (("participants", Value.vaddrs (participantsOf r.periodState)) ::
       ("all_participants", Value.vaddrs (allParticipantsOf r.periodState)) :: pairs),
      ?_, rfl, ?_⟩
    · simp [resetAndPauseEndBlock, hth, hpairs]
    · intro k hk
      have hk1 : ¬("participants" = k) := fun hh => hp (hh ▸ hk)
      have hk2 : ¬("all_participants" = k) := fun hh => ha (hh ▸ hk)
      show alookup k _ = _
      simp only [updateState, alookup, hk1, hk2, if_false]
      exact collectStrict_ok_mem_lookup _ _ _ hpairs k hk
  · constructor <;> simp [resetEndBlock, resetAndPauseEndBlock, hth, hmaj]
  · constructor <;> simp [resetEndBlock, resetAndPauseEndBlock, hth, hmaj]

/-- Witness for C2 at a concrete input: three disagreeing payloads out of
four participants make a majority impossible, and both rounds emit
`NO_MAJORITY` with the unchanged period state. -/
theorem end_block_decision_policy_witness :
    resetEndBlock { collection := [⟨"a", 1⟩, ⟨"b", 2⟩, ⟨"c", 3⟩], periodState := psSample } =
      some (psSample, .NO_MAJORITY) :=
  ((end_block_decision_policy
    { collection := [⟨"a", 1⟩, ⟨"b", 2⟩, ⟨"c", 3⟩], periodState := psSample }
    (by decide) (by decide)).2.1 rfl rfl).1

/-- C9: frame effect of `ResetRound.end_block` — when the threshold is
reached the returned next period state keeps every stored key at its prior
value, except that `tx_hashes_history` is set to `None` and the period
count becomes `most_voted_payload`; in the `NO_MAJORITY` branch the very
same period state is returned. -/
theorem reset_round_frame_effect (r : RoundState) :
    (thresholdReached r.collection (nbParticipants r.periodState) = true →
      ∃ st, resetEndBlock r = some (st, .DONE)
        ∧ st.db.periodCount = (mostVoted r.collection).getD 0
        ∧ alookup "tx_hashes_history" st.db.data = some .vnull
        ∧ ∀ k, k ≠ "tx_hashes_history" →
            alookup k st.db.data = alookup k r.periodState.db.data)
    ∧ (thresholdReached r.collection (nbParticipants r.periodState) = false →
        isMajorityPossible r.collection (nbParticipants r.periodState) = false →
        resetEndBlock r = some (r.periodState, .NO_MAJORITY)) := by
  constructor
  · intro hth
    refine ⟨updateState r.periodState (some ((mostVoted r.collection).getD 0))
      (aset r.periodState.db.getAll "tx_hashes_history" .vnull), ?_, rfl, ?_, ?_⟩
    · simp [resetEndBlock, hth]
    · exact alookup_aset_self _ _ _
    · intro k hk
      exact alookup_aset_ne _ _ _ _ hk
  · intro hth hmaj
    simp [resetEndBlock, hth, hmaj]

/-- Witness for C9 at a concrete input: three matching payloads out of four
participants reach the threshold and the round decides `DONE`. -/
theorem reset_round_frame_effect_witness :
    (resetEndBlock { collection := [⟨"a", 5⟩, ⟨"b", 5⟩, ⟨"c", 5⟩],
                     periodState := psSample }).map Prod.snd = some RPEvent.DONE := by
  obtain ⟨st, h1, -, -, -⟩ :=
    (reset_round_frame_effect
      { collection := [⟨"a", 5⟩, ⟨"b", 5⟩, ⟨"c", 5⟩], periodState := psSample }).1 rfl
  rw [h1]
  rfl

/-- C6 counterexample: with an empty persisted-key list, the `DONE`
decision of `ResetAndPauseRound.end_block` still carries the prior value of
the `participants` key into the next period state, although `participants`
is not listed in `cross_period_persisted_keys` — the code passes it as an
explicit keyword argument alongside the persisted keys. -/
theorem reset_and_pause_carries_unlisted_participants :
    resetAndPauseEndBlock
        { collection := [⟨"a", 1⟩, ⟨"b", 1⟩, ⟨"c", 1⟩], periodState := psSample } =
      .ok (some ({ db := { periodCount := 1,
                           data := [("participants", .vaddrs ["a", "b", "c", "d"]),
                                    ("all_participants", .vaddrs ["a", "b", "c", "d"])],
                           crossPeriodPersistedKeys := [] } }, .DONE))
    ∧ alookup "participants" psSample.db.data = some (.vaddrs ["a", "b", "c", "d"])
    ∧ psSample.db.crossPeriodPersistedKeys = [] := ⟨rfl, rfl, rfl⟩

/-- C6 amended: when `ResetAndPauseRound.end_block` decides `DONE`, every
key of `cross_period_persisted_keys` appears in the next period state with
exactly its prior value; `participants` and `all_participants` are also
carried (as explicit keyword arguments); every other key is absent from
the new period data — a later read of it fails — rather than reverting to
a declared default. -/
theorem reset_and_pause_cross_period_persistence (r : RoundState)
    (st : BasePeriodState) (ev : RPEvent)
    (hth : thresholdReached r.collection (nbParticipants r.periodState) = true)
    (hres : resetAndPauseEndBlock r = .ok (some (st, ev)))
    (hp : "participants" ∉ r.periodState.db.crossPeriodPersistedKeys)
    (ha : "all_participants" ∉ r.periodState.db.crossPeriodPersistedKeys) :
    ev = .DONE
    ∧ (∀ k ∈ r.periodState.db.crossPeriodPersistedKeys,
        alookup k st.db.data = alookup k r.periodState.db.data)
    ∧ alookup "participants" st.db.data = some (.vaddrs (participantsOf r.periodState))
    ∧ alookup "all_participants" st.db.data =
        some (.vaddrs (allParticipantsOf r.periodState))
    ∧ (∀ k, k ∉ r.periodState.db.crossPeriodPersistedKeys →
        k ≠ "participants" → k ≠ "all_participants" →
        alookup k st.db.data = none) := by
  cases hpairs : collectStrict r.periodState.db r.periodState.db.crossPeriodPersistedKeys with
  | error e =>
    simp [resetAndPauseEndBlock, hth, hpairs] at hres
  | ok pairs =>
    simp only [resetAndPauseEndBlock, hth, hpairs, if_true, Except.ok.injEq,
      Option.some.injEq, Prod.mk.injEq] at hres
    obtain ⟨hst, hev⟩ := hres
    subst hst
    refine ⟨hev.symm, ?_, ?_, ?_, ?_⟩
    · intro k hk
      have hk1 : ¬("participants" = k) := fun hh => hp (hh ▸ hk)
      have hk2 : ¬("all_participants" = k) := fun hh => ha (hh ▸ hk)
      show alookup k _ = _
      simp only [updateState, alookup, hk1, hk2, if_false]
      exact collectStrict_ok_mem_lookup _ _ _ hpairs k hk
    · show alookup "participants" _ = _
      simp [updateState, alookup]
    · show alookup "all_participants" _ = _
      simp [updateState, alookup]
    · intro k hk hk1 hk2
      have hh1 : ¬("participants" = k) := fun hh => hk1 hh.symm
      have hh2 : ¬("all_participants" = k) := fun hh => hk2 hh.symm
      show alookup k _ = none
      simp only [updateState, alookup, hh1, hh2, if_false]
      apply alookup_eq_none_of_not_mem
      rw [collectStrict_ok_keys _ _ _ hpairs]
      exact hk

/-- Sample period state with two cross-period-persisted keys and an
ephemeral key, used to instantiate the persistence theorem. -/
def psPersist : BasePeriodState :=
  { db := { periodCount := 0,
            data := [("participants", .vaddrs ["a", "b", "c"]),
                     ("all_participants", .vaddrs ["a", "b", "c"]),
                     ("safe_contract_address", .vstr "0xdead"),
                     ("oracle_contract_address", .vstr "0xbeef"),
                     ("price_history", .vnat 3)],
            crossPeriodPersistedKeys :=
              ["safe_contract_address", "oracle_contract_address"] } }

/-- Next period state computed by `ResetAndPauseRound.end_block` from
`psPersist` with three unanimous payloads for period count `7`. -/
def psPersistNext : BasePeriodState :=
  { db := { periodCount := 7,
            data := [("participants", .vaddrs ["a", "b", "c"]),
                     ("all_participants", .vaddrs ["a", "b", "c"]),
                     ("safe_contract_address", .vstr "0xdead"),
                     ("oracle_contract_address", .vstr "0xbeef")],
            crossPeriodPersistedKeys :=
              ["safe_contract_address", "oracle_contract_address"] } }

/-- Witness for the amended C6 at a concrete input: the persisted key
`safe_contract_address` is carried verbatim across the period
transition. -/
theorem reset_and_pause_cross_period_persistence_witness :
    alookup "safe_contract_address" psPersistNext.db.data =
      alookup "safe_contract_address" psPersist.db.data :=
  (reset_and_pause_cross_period_persistence
    { collection := [⟨"a", 7⟩, ⟨"b", 7⟩, ⟨"c", 7⟩], periodState := psPersist }
    psPersistNext .DONE rfl rfl (by decide) (by decide)).2.1
    "safe_contract_address" (by decide)

theorem votesFor_perm {c₁ c₂ : List ResetPayload} (h : c₁.Perm c₂) (v : Nat) :
    votesFor c₁ v = votesFor c₂ v :=
  h.countP_eq _

theorem thresholdReached_perm {c₁ c₂ : List ResetPayload} (h : c₁.Perm c₂) (n : Nat) :
    thresholdReached c₁ n = thresholdReached c₂ n := by
  have key : (thresholdReached c₁ n = true) ↔ (thresholdReached c₂ n = true) := by
    simp only [thresholdReached, List.any_eq_true]
    constructor
    · rintro ⟨p, hp, hlt⟩
      refine ⟨p, h.mem_iff.mp hp, ?_⟩
      rwa [← votesFor_perm h]
    · rintro ⟨p, hp, hlt⟩
      refine ⟨p, h.mem_iff.mpr hp, ?_⟩
      rwa [votesFor_perm h]
  cases h1 : thresholdReached c₁ n <;> cases h2 : thresholdReached c₂ n <;> simp_all

theorem foldrMax_ge (l : List Nat) : ∀ x ∈ l, x ≤ l.foldr Nat.max 0 := by
  induction l with
  | nil => simp
  | cons a l ih =>
    intro x hx
    rcases List.mem_cons.mp hx with hxa | hxl
    · subst hxa; exact Nat.le_max_left _ _
    · exact le_trans (ih x hxl) (Nat.le_max_right _ _)

theorem foldrMax_mem (l : List Nat) :
    l.foldr Nat.max 0 = 0 ∨ l.foldr Nat.max 0 ∈ l := by
  induction l with
  | nil => simp
  | cons a l ih =>
    simp only [List.foldr_cons]
    rcases Nat.le_total a (l.foldr Nat.max 0) with hle | hge
    · have hmax : a.max (l.foldr Nat.max 0) = l.foldr Nat.max 0 := max_eq_right hle
      rw [hmax]
      rcases ih with h0 | hm
      · exact Or.inl h0
      · exact Or.inr (List.mem_cons_of_mem _ hm)
    · have hmax : a.max (l.foldr Nat.max 0) = a := max_eq_left hge
      rw [hmax]
      exact Or.inr (List.mem_cons_self _ _)

theorem foldrMax_perm {l₁ l₂ : List Nat} (h : l₁.Perm l₂) :
    l₁.foldr Nat.max 0 = l₂.foldr Nat.max 0 := by
  apply Nat.le_antisymm
  · rcases foldrMax_mem l₁ with h0 | hm
    · rw [h0]; exact Nat.zero_le _
    · exact foldrMax_ge l₂ _ (h.mem_iff.mp hm)
  · rcases foldrMax_mem l₂ with h0 | hm
    · rw [h0]; exact Nat.zero_le _
    · exact foldrMax_ge l₁ _ (h.mem_iff.mpr hm)

theorem largestCount_perm {c₁ c₂ : List ResetPayload} (h : c₁.Perm c₂) :
    largestCount c₁ = largestCount c₂ := by
  unfold largestCount
  have hmap : (c₁.map (fun p => votesFor c₁ p.periodCount)).Perm
      (c₂.map (fun p => votesFor c₂ p.periodCount)) := by
    have : (fun p : ResetPayload => votesFor c₁ p.periodCount) =
        fun p : ResetPayload => votesFor c₂ p.periodCount := by
      funext p; exact votesFor_perm h _
    rw [this]
    exact h.map _
  exact foldrMax_perm hmap

theorem isMajorityPossible_perm {c₁ c₂ : List ResetPayload} (h : c₁.Perm c₂) (n : Nat) :
    isMajorityPossible c₁ n = isMajorityPossible c₂ n := by
  unfold isMajorityPossible
  rw [largestCount_perm h, h.length_eq]

theorem argmax_go (cnt : Nat → Nat) :
    ∀ (l : List Nat) (a : Nat),
      ∃ w, List.foldl (argmaxStep cnt) (some a) l = some w
        ∧ (w = a ∨ w ∈ l) ∧ cnt a ≤ cnt w ∧ ∀ v ∈ l, cnt v ≤ cnt w := by
  intro l
  induction l with
  | nil => intro a; exact ⟨a, rfl, Or.inl rfl, le_refl _, by simp⟩
  | cons v l ih =>
    intro a
    by_cases hc : cnt a < cnt v
    · obtain ⟨w, hw, hmem, hle, hall⟩ := ih v
      refine ⟨w, ?_, ?_, ?_, ?_⟩
      · simp only [List.foldl_cons, argmaxStep, if_pos hc]
        exact hw
      · rcases hmem with h | h
        · exact Or.inr (h ▸ List.mem_cons_self _ _)
        · exact Or.inr (List.mem_cons_of_mem _ h)
      · exact le_trans (le_of_lt hc) hle
      · intro u hu
        rcases List.mem_cons.mp hu with h | h
        · exact h ▸ hle
        · exact hall u h
    · obtain ⟨w, hw, hmem, hle, hall⟩ := ih a
      have hmem' : w = a ∨ w ∈ v :: l := by
        rcases hmem with h | h
        · exact Or.inl h
        · exact Or.inr (List.mem_cons_of_mem _ h)
      refine ⟨w, ?_, hmem', hle, ?_⟩
      · simp only [List.foldl_cons, argmaxStep, if_neg hc]
        exact hw
      · intro u hu
        rcases List.mem_cons.mp hu with h | h
        · exact h ▸ le_trans (Nat.le_of_not_lt hc) hle
        · exact hall u h

theorem mostVoted_spec (c : List ResetPayload) (hne : c ≠ []) :
    ∃ w, mostVoted c = some w ∧ (∃ p ∈ c, p.periodCount = w)
      ∧ ∀ p ∈ c, votesFor c p.periodCount ≤ votesFor c w := by
  cases c with
  | nil => exact absurd rfl hne
  | cons p rest =>
    obtain ⟨w, hw, hmem, hle, hall⟩ :=
      argmax_go (votesFor (p :: rest)) (rest.map (·.periodCount)) p.periodCount
    refine ⟨w, ?_, ?_, ?_⟩
    · simp only [mostVoted, argmaxCount, List.map_cons, List.foldl_cons, argmaxStep]
      exact hw
    · rcases hmem with h | h
      · exact ⟨p, List.mem_cons_self _ _, h.symm⟩
      · obtain ⟨q, hq, hqpc⟩ := List.mem_map.mp h
        exact ⟨q, List.mem_cons_of_mem _ hq, hqpc⟩
    · intro q hq
      rcases List.mem_cons.mp hq with h | h
      · exact h ▸ hle
      · exact hall q.periodCount (List.mem_map.mpr ⟨q, h, rfl⟩)

theorem votesFor_add_le (c : List ResetPayload) (v w : Nat) (hvw : v ≠ w) :
    votesFor c v + votesFor c w ≤ c.length := by
  induction c with
  | nil => simp [votesFor]
  | cons p rest ih =>
    unfold votesFor at *
    rw [List.length_cons]
    by_cases h1 : p.periodCount = v
    · have h2 : ¬(p.periodCount = w) := by rw [h1]; exact hvw
      rw [List.countP_cons_of_pos _ _ (by simpa using h1),
          List.countP_cons_of_neg _ _ (by simpa using h2)]
      omega
    · by_cases h2 : p.periodCount = w
      · rw [List.countP_cons_of_neg _ _ (by simpa using h1),
            List.countP_cons_of_pos _ _ (by simpa using h2)]
        omega
      · rw [List.countP_cons_of_neg _ _ (by simpa using h1),
            List.countP_cons_of_neg _ _ (by simpa using h2)]
        omega

theorem mostVoted_eq_of_perm {c₁ c₂ : List ResetPayload} {n : Nat} (hperm : c₁.Perm c₂)
    (hth : thresholdReached c₁ n = true) (hlen : c₁.length ≤ n) :
    mostVoted c₁ = mostVoted c₂ := by
  have hth2 : ∃ p ∈ c₁, 2 * n < 3 * votesFor c₁ p.periodCount := by
    simpa [thresholdReached, List.any_eq_true] using hth
  obtain ⟨p0, hp0, hbig⟩ := hth2
  have hne₁ : c₁ ≠ [] := by
    intro h; subst h; simp at hp0
  have hne₂ : c₂ ≠ [] := by
    intro h; subst h
    exact hne₁ (List.length_eq_zero.mp (hperm.length_eq.trans rfl))
  obtain ⟨w₁, hw₁, ⟨q₁, hq₁, hq₁pc⟩, hmax₁⟩ := mostVoted_spec c₁ hne₁
  obtain ⟨w₂, hw₂, ⟨q₂, hq₂, hq₂pc⟩, hmax₂⟩ := mostVoted_spec c₂ hne₂
  rw [hw₁, hw₂]
  have h1 : 2 * n < 3 * votesFor c₁ w₁ := by
    have := hmax₁ p0 hp0
    omega
  have h2 : 2 * n < 3 * votesFor c₁ w₂ := by
    have hp0' : p0 ∈ c₂ := hperm.mem_iff.mp hp0
    have hmax := hmax₂ p0 hp0'
    have hv1 : votesFor c₂ p0.periodCount = votesFor c₁ p0.periodCount :=
      (votesFor_perm hperm _).symm
    have hv2 : votesFor c₁ w₂ = votesFor c₂ w₂ := votesFor_perm hperm _
    omega
  by_contra hneq
  have hne' : w₁ ≠ w₂ := fun h => hneq (h ▸ rfl)
  have hsum := votesFor_add_le c₁ w₁ w₂ hne'
  omega

/-- C4 amended: insertion-order independence of `end_block` holds for
collections with at most one payload per participant, senders drawn from
the participant set — then the above-quorum winner is unique and two runs
over the same set of sender-to-payload bindings and the same period state
compute identical decisions, for `ResetRound` and for
`ResetAndPauseRound`, including the winning `most_voted_payload` value.
(Validation only checks membership in `all_participants`, which may
strictly contain `participants`; the unrestricted claim fails, see the
counterexample below.) -/
theorem end_block_insertion_order_independent
    (c₁ c₂ : List ResetPayload) (ps : BasePeriodState)
    (hperm : c₁.Perm c₂)
    (hnodup : (c₁.map ResetPayload.sender).Nodup)
    (hsub : ∀ p ∈ c₁, p.sender ∈ participantsOf ps) :
    resetEndBlock { collection := c₁, periodState := ps } =
      resetEndBlock { collection := c₂, periodState := ps }
    ∧ resetAndPauseEndBlock { collection := c₁, periodState := ps } =
      resetAndPauseEndBlock { collection := c₂, periodState := ps } := by
  have hlen : c₁.length ≤ nbParticipants ps := by
    have h1 : (c₁.map ResetPayload.sender).toFinset.card = c₁.length := by
      rw [List.toFinset_card_of_nodup hnodup, List.length_map]
    have h2 : (c₁.map ResetPayload.sender).toFinset ⊆ (participantsOf ps).toFinset := by
      intro x hx
      rw [List.mem_toFinset] at hx
      obtain ⟨p, hp, hpx⟩ := List.mem_map.mp hx
      rw [List.mem_toFinset]
      exact hpx ▸ hsub p hp
    calc c₁.length = (c₁.map ResetPayload.sender).toFinset.card := h1.symm
      _ ≤ (participantsOf ps).toFinset.card := Finset.card_le_card h2
      _ ≤ (participantsOf ps).length := List.toFinset_card_le _
  have hth := thresholdReached_perm hperm (nbParticipants ps)
  have hmaj := isMajorityPossible_perm hperm (nbParticipants ps)
  by_cases h : thresholdReached c₁ (nbParticipants ps) = true
  · have hmv := mostVoted_eq_of_perm hperm h hlen
    have h2 : thresholdReached c₂ (nbParticipants ps) = true := hth ▸ h
    constructor
    · simp [resetEndBlock, h, h2, hmv]
    · simp [resetAndPauseEndBlock, h, h2, hmv]
  · have h1 : thresholdReached c₁ (nbParticipants ps) = false := by
      revert h; cases thresholdReached c₁ (nbParticipants ps) <;> simp
    have h2 : thresholdReached c₂ (nbParticipants ps) = false := hth ▸ h1
    constructor
    · simp [resetEndBlock, h1, h2, hmaj]
    · simp [resetAndPauseEndBlock, h1, h2, hmaj]

/-- Witness for C4 at a concrete input: the same three payloads presented
in two different insertion orders yield the same `ResetRound.end_block`
decision. -/
theorem end_block_insertion_order_independent_witness :
    resetEndBlock { collection := [⟨"a", 1⟩, ⟨"b", 1⟩, ⟨"c", 2⟩],
                    periodState := psSample } =
      resetEndBlock { collection := [⟨"c", 2⟩, ⟨"a", 1⟩, ⟨"b", 1⟩],
                      periodState := psSample } :=
  (end_block_insertion_order_independent
    [⟨"a", 1⟩, ⟨"b", 1⟩, ⟨"c", 2⟩] [⟨"c", 2⟩, ⟨"a", 1⟩, ⟨"b", 1⟩] psSample
    (by decide) (by decide) (by decide)).1

/-- Period state whose `all_participants` strictly contains
`participants`, as the data-model invariant of spec section 3 permits:
three participants but six addresses allowed to submit. -/
def psWide : BasePeriodState :=
  { db := { periodCount := 0,
            data := [("participants", .vaddrs ["a", "b", "c"]),
                     ("all_participants", .vaddrs ["a", "b", "c", "d", "e", "f"])],
            crossPeriodPersistedKeys := [] } }

/-- Six valid payloads (distinct senders, all in `all_participants`) split
three votes for period count `1` and three for period count `2`. -/
def cSplit1 : List ResetPayload :=
  [⟨"a", 1⟩, ⟨"b", 1⟩, ⟨"c", 1⟩, ⟨"d", 2⟩, ⟨"e", 2⟩, ⟨"f", 2⟩]

/-- The same six payloads inserted in a different order. -/
def cSplit2 : List ResetPayload :=
  [⟨"d", 2⟩, ⟨"e", 2⟩, ⟨"f", 2⟩, ⟨"a", 1⟩, ⟨"b", 1⟩, ⟨"c", 1⟩]

/-- C4 counterexample: with `all_participants` strictly larger than
`participants` (`nb_participants = 3`), two collections holding the same
six valid sender-to-payload bindings — distinct senders, every sender
admitted by the rounds' own validation against `all_participants` — both
put the vote groups for `1` and for `2` above the two-thirds quorum, and
`end_block` decides a different `most_voted_payload` depending purely on
insertion order. -/
theorem end_block_insertion_order_dependent :
    cSplit1.Perm cSplit2
    ∧ (cSplit1.map ResetPayload.sender).Nodup
    ∧ cSplit1.all (fun p => (allParticipantsOf psWide).contains p.sender) = true
    ∧ resetEndBlock { collection := cSplit1, periodState := psWide } ≠
        resetEndBlock { collection := cSplit2, periodState := psWide } :=
  ⟨by decide, by decide, by decide, by decide⟩

/-- Tendermint node parameters as delivered by the sidecar's params
endpoint, embedded as a string-valued dictionary (the behaviour never
inspects individual fields, it only stores, mutates `p2p_seeds` and
forwards them). -/
abbrev TmParams := List (String × String)

/-- Set a key in a string-valued dictionary, Python `dict` assignment. -/
def asetS (d : TmParams) (k : String) (v : String) : TmParams :=
  match d with
  | [] => [(k, v)]
  | kv :: rest =>
    if kv.1 = k then (k, v) :: rest else kv :: asetS rest k v

/-- Skill parameters and agent context consumed by
`RegistrationStartupBehaviour`: the sidecar control URL, this node's
Tendermint URL, the service-registry contract address, the on-chain
service id, the retry sleep time, and the agent's own address. -/
structure RegParams where
  tendermintComUrl : String
  tendermintUrl : String
  serviceRegistryAddr : Option String
  onChainServiceId : Nat
  sleepTime : Nat
  agentAddress : String
  deriving DecidableEq, Repr

/-- Mutable state of `RegistrationStartupBehaviour` observable across
re-entries of `async_act`: the cached local Tendermint parameters, the
class-level `collected` dictionary of peer configuration info, and the
`registered_addresses` entry of the store's `initial_data` (the empty list
models the absent key, read back as the default `{}`). -/
structure BehaviourState where
  localTendermintParams : Option TmParams
  collected : List (String × String)
  registeredAddresses : List (String × Option String)
  deriving DecidableEq, Repr

/-- Externally observable actions issued during one entry of
`async_act`. -/
inductive Call where
  | tmConfigFetch
  | registryVerify
  | registryServiceInfo
  | tmRequest (addr : String)
  | tmUpdateConfig
  | tmStart
  | sleep (seconds : Nat)
  | submitPayload
  deriving DecidableEq, Repr

/-- How one entry of `async_act` ends: an early return (the behaviour will
be re-entered), fall-through to the base registration behaviour, or an
escaped exception. -/
inductive Outcome where
  | returned
  | completed
  | crashed
  deriving DecidableEq, Repr

/-- Results of the external dependencies during one entry, as the
behaviour observes them: the parsed body of the sidecar params GET (`none`
models a JSON decode failure), the `verified` flag of the registry
verification (`none` models a performative mismatch), the
`agent_instances` of the service-info query (`none` models an unreachable
or empty result), and the parsed status fields of the sidecar POST and
`/start` responses (`none` models a JSON decode failure). -/
structure Env where
  tmConfigResult : Option TmParams
  verifyResult : Option Bool
  serviceInfo : Option (List String)
  updateStatus : Option Nat
  startStatus : Option Nat
  deriving DecidableEq, Repr

/-- Outcome of `is_correct_contract`: `False` on a performative mismatch,
else the response's `verified` flag (`behaviours.py`, lines 105-118). -/
def isCorrectContract (e : Env) : Bool :=
  match e.verifyResult with
  | none => false
  | some b => b

/-- Number of retry sleeps of the given duration in a call trace. -/
def countSleeps (t : Nat) (l : List Call) : Nat :=
  l.countP (fun c => c = Call.sleep t)

/-- The `p2p_seeds` value written before the sidecar POST:
`list(self.registered_addresses.values())` serialized into the
string-valued parameter dictionary. -/
def p2pSeedsValue (regs : List (String × Option String)) : String :=
  String.intercalate "," (regs.map (fun kv => kv.2.getD ""))

/-- Steps of `async_act` after address registration (`behaviours.py`,
lines 262-283): request the Tendermint configuration of every
not-yet-collected peer and, if any is outstanding, sleep once and return;
otherwise POST the updated configuration (mutating the cached parameter
dictionary's `p2p_seeds` first) and, on failure, sleep once and return;
otherwise hit `/start` and, on failure, sleep once inside
`start_tendermint` and once more in `async_act` before returning; on
success fall through to the base registration behaviour. -/
def asyncActStep3 (p : RegParams) (s : BehaviourState) (e : Env)
    (acc : List Call) : BehaviourState × List Call × Outcome :=
  let notCollected := (s.registeredAddresses.map Prod.fst).filter
    (fun a => !(s.collected.map Prod.fst).contains a)
  let reqCalls := notCollected.map Call.tmRequest
  if notCollected.isEmpty then
    let params' := asetS (s.localTendermintParams.getD [])
      "p2p_seeds" (p2pSeedsValue s.registeredAddresses)
    let s' := { s with localTendermintParams := some params' }
    match e.updateStatus with
    | none => (s', acc ++ [Call.tmUpdateConfig, Call.sleep p.sleepTime], .returned)
    | some st =>
      if st = 200 then
        match e.startStatus with
        | none =>
          (s', acc ++ [Call.tmUpdateConfig, Call.tmStart,
                       Call.sleep p.sleepTime, Call.sleep p.sleepTime], .returned)
        | some st2 =>
          if st2 = 200 then
            (s', acc ++ [Call.tmUpdateConfig, Call.tmStart, Call.submitPayload], .completed)
          else
            (s', acc ++ [Call.tmUpdateConfig, Call.tmStart,
                         Call.sleep p.sleepTime, Call.sleep p.sleepTime], .returned)
      else
        (s', acc ++ [Call.tmUpdateConfig, Call.sleep p.sleepTime], .returned)
  else
    (s, acc ++ reqCalls ++ [Call.sleep p.sleepTime], .returned)

/-- Registry step of `async_act` (`behaviours.py`, lines 255-260 and
`get_addresses`, lines 136-173): when no addresses are registered yet,
raise if no registry address is configured; otherwise verify the contract,
query the service info, and either record the registered addresses (with
this agent's Tendermint URL as its own entry) and continue, or sleep once
and return on any failure. -/
def asyncActStep2 (p : RegParams) (s : BehaviourState) (e : Env)
    (acc : List Call) : BehaviourState × List Call × Outcome :=
  if s.registeredAddresses.isEmpty then
    if p.serviceRegistryAddr.isNone then
      (s, acc, .crashed)
    else if isCorrectContract e = false then
      (s, acc ++ [Call.registryVerify, Call.sleep p.sleepTime], .returned)
    else
      match e.serviceInfo with
      | none =>
        (s, acc ++ [Call.registryVerify, Call.registryServiceInfo,
                    Call.sleep p.sleepTime], .returned)
      | some instances =>
        let regs := instances.dedup
        if regs.isEmpty then
          (s, acc ++ [Call.registryVerify, Call.registryServiceInfo,
                      Call.sleep p.sleepTime], .returned)
        else if regs.contains p.agentAddress then
          let info := regs.map
            (fun a => (a, if a = p.agentAddress then some p.tendermintUrl else none))
          asyncActStep3 p { s with registeredAddresses := info } e
            (acc ++ [Call.registryVerify, Call.registryServiceInfo])
        else
          (s, acc ++ [Call.registryVerify, Call.registryServiceInfo,
                      Call.sleep p.sleepTime], .returned)
  else
    asyncActStep3 p s e acc

/-- One entry of `RegistrationStartupBehaviour.async_act`
(`behaviours.py`, lines 245-283), as a function of the behaviour state and
the observed results of external dependencies, yielding the state after
the entry, the trace of externally observable calls, and how the entry
ended.  The first guard re-checks whether the local Tendermint
configuration was already obtained (a Python-falsy empty dictionary counts
as absent) and on a fetch failure sleeps once and returns. -/
def asyncAct (p : RegParams) (s : BehaviourState) (e : Env) :
    BehaviourState × List Call × Outcome :=
  let needsFetch := match s.localTendermintParams with
    | none => true
    | some tp => tp.isEmpty
  if needsFetch then
    match e.tmConfigResult with
    | none => (s, [Call.tmConfigFetch, Call.sleep p.sleepTime], .returned)
    | some tp =>
      asyncActStep2 p { s with localTendermintParams := some tp } e [Call.tmConfigFetch]
  else
    asyncActStep2 p s e []

theorem countSleeps_nil (t : Nat) : countSleeps t [] = 0 := rfl

theorem countSleeps_cons (t : Nat) (c : Call) (l : List Call) :
    countSleeps t (c :: l) = countSleeps t l + if c = Call.sleep t then 1 else 0 := by
  simp [countSleeps, List.countP_cons]

theorem countSleeps_append (t : Nat) (l₁ l₂ : List Call) :
    countSleeps t (l₁ ++ l₂) = countSleeps t l₁ + countSleeps t l₂ := by
  simp [countSleeps, List.countP_append]

theorem countSleeps_tmRequests (t : Nat) (l : List String) :
    countSleeps t (l.map Call.tmRequest) = 0 := by
  induction l with
  | nil => rfl
  | cons a l ih => simp [List.map_cons, countSleeps_cons, ih]

theorem asetS_ne_nil (d : TmParams) (k v : String) : asetS d k v ≠ [] := by
  cases d with
  | nil => simp [asetS]
  | cons kv rest => by_cases h : kv.1 = k <;> simp [asetS, h]

theorem asyncActStep3_spec (p : RegParams) (s : BehaviourState) (e : Env)
    (acc : List Call) :
    ∃ extra,
      (asyncActStep3 p s e acc).2.1 = acc ++ extra
      ∧ (∀ c ∈ extra, c ≠ Call.tmConfigFetch ∧ c ≠ Call.registryVerify
          ∧ c ≠ Call.registryServiceInfo)
      ∧ (asyncActStep3 p s e acc).1.registeredAddresses = s.registeredAddresses
      ∧ ((asyncActStep3 p s e acc).1.localTendermintParams = s.localTendermintParams
         ∨ ∃ tp', (asyncActStep3 p s e acc).1.localTendermintParams = some tp' ∧ tp' ≠ [])
      ∧ (((asyncActStep3 p s e acc).2.2 = .returned
            ∧ 1 ≤ countSleeps p.sleepTime extra ∧ countSleeps p.sleepTime extra ≤ 2)
         ∨ ((asyncActStep3 p s e acc).2.2 = .completed
            ∧ countSleeps p.sleepTime extra = 0)) := by
  rcases hres : asyncActStep3 p s e acc with ⟨s3, calls3, out3⟩
  simp only [hres]
  unfold asyncActStep3 at hres
  by_cases hnc : ((s.registeredAddresses.map Prod.fst).filter
      (fun a => !(s.collected.map Prod.fst).contains a)).isEmpty
  · rw [if_pos hnc] at hres
    have hne := asetS_ne_nil (s.localTendermintParams.getD [])
      "p2p_seeds" (p2pSeedsValue s.registeredAddresses)
    cases hupd : e.updateStatus with
    | none =>
      rw [hupd] at hres
      simp only [Prod.mk.injEq] at hres
      obtain ⟨hs3, hcalls3, hout3⟩ := hres
      subst hs3; subst hcalls3; subst hout3
      refine ⟨[Call.tmUpdateConfig, Call.sleep p.sleepTime], rfl, ?_, rfl,
        Or.inr ⟨_, rfl, hne⟩, Or.inl ⟨rfl, ?_, ?_⟩⟩
      · intro c hc
        rcases List.mem_cons.mp hc with rfl | hc2
        · exact ⟨by simp, by simp, by simp⟩
        · rcases List.mem_cons.mp hc2 with rfl | hc3
          · exact ⟨by simp, by simp, by simp⟩
          · simp at hc3
      · simp [countSleeps_cons, countSleeps_nil]
      · simp [countSleeps_cons, countSleeps_nil]
    | some st =>
      rw [hupd] at hres
      dsimp only [] at hres
      by_cases hst : st = 200
      · rw [if_pos hst] at hres
        cases hstart : e.startStatus with
        | none =>
          rw [hstart] at hres
          dsimp only [] at hres
          simp only [Prod.mk.injEq] at hres
          obtain ⟨hs3, hcalls3, hout3⟩ := hres
          subst hs3; subst hcalls3; subst hout3
          refine ⟨[Call.tmUpdateConfig, Call.tmStart,
            Call.sleep p.sleepTime, Call.sleep p.sleepTime], rfl, ?_, rfl,
            Or.inr ⟨_, rfl, hne⟩, Or.inl ⟨rfl, ?_, ?_⟩⟩
          · intro c hc
            simp only [List.mem_cons, List.not_mem_nil, or_false] at hc
            rcases hc with rfl | rfl | rfl | rfl <;> exact ⟨by simp, by simp, by simp⟩
          · simp [countSleeps_cons, countSleeps_nil]
          · simp [countSleeps_cons, countSleeps_nil]
        | some st2 =>
          rw [hstart] at hres
          dsimp only [] at hres
          by_cases hst2 : st2 = 200
          · rw [if_pos hst2] at hres
            simp only [Prod.mk.injEq] at hres
            obtain ⟨hs3, hcalls3, hout3⟩ := hres
            subst hs3; subst hcalls3; subst hout3
            refine ⟨[Call.tmUpdateConfig, Call.tmStart, Call.submitPayload], rfl, ?_, rfl,
              Or.inr ⟨_, rfl, hne⟩, Or.inr ⟨rfl, ?_⟩⟩
            · intro c hc
              simp only [List.mem_cons, List.not_mem_nil, or_false] at hc
              rcases hc with rfl | rfl | rfl <;> exact ⟨by simp, by simp, by simp⟩
            · simp [countSleeps_cons, countSleeps_nil]
          · rw [if_neg hst2] at hres
            simp only [Prod.mk.injEq] at hres
            obtain ⟨hs3, hcalls3, hout3⟩ := hres
            subst hs3; subst hcalls3; subst hout3
            refine ⟨[Call.tmUpdateConfig, Call.tmStart,
              Call.sleep p.sleepTime, Call.sleep p.sleepTime], rfl, ?_, rfl,
              Or.inr ⟨_, rfl, hne⟩, Or.inl ⟨rfl, ?_, ?_⟩⟩
            · intro c hc
              simp only [List.mem_cons, List.not_mem_nil, or_false] at hc
              rcases hc with rfl | rfl | rfl | rfl <;> exact ⟨by simp, by simp, by simp⟩
            · simp [countSleeps_cons, countSleeps_nil]
            · simp [countSleeps_cons, countSleeps_nil]
      · rw [if_neg hst] at hres
        simp only [Prod.mk.injEq] at hres
        obtain ⟨hs3, hcalls3, hout3⟩ := hres
        subst hs3; subst hcalls3; subst hout3
        refine ⟨[Call.tmUpdateConfig, Call.sleep p.sleepTime], rfl, ?_, rfl,
          Or.inr ⟨_, rfl, hne⟩, Or.inl ⟨rfl, ?_, ?_⟩⟩
        · intro c hc
          simp only [List.mem_cons, List.not_mem_nil, or_false] at hc
          rcases hc with rfl | rfl <;> exact ⟨by simp, by simp, by simp⟩
        · simp [countSleeps_cons, countSleeps_nil]
        · simp [countSleeps_cons, countSleeps_nil]
  · rw [if_neg hnc] at hres
    simp only [Prod.mk.injEq] at hres
    obtain ⟨hs3, hcalls3, hout3⟩ := hres
    subst hs3; subst hcalls3; subst hout3
    refine ⟨((s.registeredAddresses.map Prod.fst).filter
        (fun a => !(s.collected.map Prod.fst).contains a)).map Call.tmRequest
        ++ [Call.sleep p.sleepTime], by rw [List.append_assoc], ?_, rfl,
      Or.inl rfl, Or.inl ⟨rfl, ?_, ?_⟩⟩
    · intro c hc
      rcases List.mem_append.mp hc with hc1 | hc2
      · obtain ⟨a, _, rfl⟩ := List.mem_map.mp hc1
        exact ⟨by simp, by simp, by simp⟩
      · simp only [List.mem_cons, List.not_mem_nil, or_false] at hc2
        subst hc2
        exact ⟨by simp, by simp, by simp⟩
    · rw [countSleeps_append, countSleeps_tmRequests]
      simp [countSleeps_cons, countSleeps_nil]
    · rw [countSleeps_append, countSleeps_tmRequests]
      simp [countSleeps_cons, countSleeps_nil]

theorem asyncActStep2_spec (p : RegParams) (s : BehaviourState) (e : Env)
    (acc : List Call) :
    (s.registeredAddresses.isEmpty = true ∧ p.serviceRegistryAddr.isNone = true
      ∧ asyncActStep2 p s e acc = (s, acc, .crashed))
    ∨ ∃ extra,
        (asyncActStep2 p s e acc).2.1 = acc ++ extra
        ∧ (∀ c ∈ extra, c ≠ Call.tmConfigFetch)
        ∧ ((asyncActStep2 p s e acc).1.localTendermintParams = s.localTendermintParams
           ∨ ∃ tp', (asyncActStep2 p s e acc).1.localTendermintParams = some tp' ∧ tp' ≠ [])
        ∧ (s.registeredAddresses.isEmpty = false →
            ((asyncActStep2 p s e acc).1.registeredAddresses = s.registeredAddresses
             ∧ ∀ c ∈ extra, c ≠ Call.registryVerify ∧ c ≠ Call.registryServiceInfo))
        ∧ (((asyncActStep2 p s e acc).2.2 = .returned
              ∧ 1 ≤ countSleeps p.sleepTime extra ∧ countSleeps p.sleepTime extra ≤ 2)
           ∨ ((asyncActStep2 p s e acc).2.2 = .completed
              ∧ countSleeps p.sleepTime extra = 0)) := by
  rcases hres : asyncActStep2 p s e acc with ⟨s2, calls2, out2⟩
  simp only [hres]
  unfold asyncActStep2 at hres
  by_cases hempty : s.registeredAddresses.isEmpty
  · rw [if_pos hempty] at hres
    by_cases haddr : p.serviceRegistryAddr.isNone
    · rw [if_pos haddr] at hres
      exact Or.inl ⟨hempty, haddr, hres ▸ rfl⟩
    · rw [if_neg haddr] at hres
      right
      by_cases hver : isCorrectContract e = false
      · rw [if_pos hver] at hres
        simp only [Prod.mk.injEq] at hres
        obtain ⟨hs, hc, ho⟩ := hres
        subst hs; subst hc; subst ho
        refine ⟨[Call.registryVerify, Call.sleep p.sleepTime], rfl, ?_, Or.inl rfl, ?_,
          Or.inl ⟨rfl, ?_, ?_⟩⟩
        · intro c hc
          simp only [List.mem_cons, List.not_mem_nil, or_false] at hc
          rcases hc with rfl | rfl <;> simp
        · intro hf; rw [hempty] at hf; simp at hf
        · simp [countSleeps_cons, countSleeps_nil]
        · simp [countSleeps_cons, countSleeps_nil]
      · rw [if_neg hver] at hres
        cases hsi : e.serviceInfo with
        | none =>
          rw [hsi] at hres
          dsimp only [] at hres
          simp only [Prod.mk.injEq] at hres
          obtain ⟨hs, hc, ho⟩ := hres
          subst hs; subst hc; subst ho
          refine ⟨[Call.registryVerify, Call.registryServiceInfo, Call.sleep p.sleepTime],
            rfl, ?_, Or.inl rfl, ?_, Or.inl ⟨rfl, ?_, ?_⟩⟩
          · intro c hc
            simp only [List.mem_cons, List.not_mem_nil, or_false] at hc
            rcases hc with rfl | rfl | rfl <;> simp
          · intro hf; rw [hempty] at hf; simp at hf
          · simp [countSleeps_cons, countSleeps_nil]
          · simp [countSleeps_cons, countSleeps_nil]
        | some instances =>
          rw [hsi] at hres
          dsimp only [] at hres
          by_cases hregs : instances.dedup.isEmpty
          · rw [if_pos hregs] at hres
            simp only [Prod.mk.injEq] at hres
            obtain ⟨hs, hc, ho⟩ := hres
            subst hs; subst hc; subst ho
            refine ⟨[Call.registryVerify, Call.registryServiceInfo, Call.sleep p.sleepTime],
              rfl, ?_, Or.inl rfl, ?_, Or.inl ⟨rfl, ?_, ?_⟩⟩
            · intro c hc
              simp only [List.mem_cons, List.not_mem_nil, or_false] at hc
              rcases hc with rfl | rfl | rfl <;> simp
            · intro hf; rw [hempty] at hf; simp at hf
            · simp [countSleeps_cons, countSleeps_nil]
            · simp [countSleeps_cons, countSleeps_nil]
          · rw [if_neg hregs] at hres
            by_cases hmem : instances.dedup.contains p.agentAddress
            · rw [if_pos hmem] at hres
              obtain ⟨extra3, hcalls, hexc, hreg3, hparams3, hout3⟩ :=
                asyncActStep3_spec p
                  { s with registeredAddresses :=
                      List.map (fun a => (a, if a = p.agentAddress then some p.tendermintUrl else none)) instances.dedup }
                  e (acc ++ [Call.registryVerify, Call.registryServiceInfo])
              rw [hres] at hcalls hparams3 hout3
              dsimp only [] at hcalls hparams3 hout3
              refine ⟨[Call.registryVerify, Call.registryServiceInfo] ++ extra3, ?_, ?_,
                ?_, ?_, ?_⟩
              · rw [hcalls, List.append_assoc]
              · intro c hc
                rcases List.mem_append.mp hc with hc1 | hc2
                · simp only [List.mem_cons, List.not_mem_nil, or_false] at hc1
                  rcases hc1 with rfl | rfl <;> simp
                · exact (hexc c hc2).1
              · exact hparams3
              · intro hf; rw [hempty] at hf; simp at hf
              · rw [countSleeps_append]
                have hz : countSleeps p.sleepTime
                    [Call.registryVerify, Call.registryServiceInfo] = 0 := by
                  simp [countSleeps_cons, countSleeps_nil]
                rw [hz]
                simpa using hout3
            · rw [if_neg hmem] at hres
              simp only [Prod.mk.injEq] at hres
              obtain ⟨hs, hc, ho⟩ := hres
              subst hs; subst hc; subst ho
              refine ⟨[Call.registryVerify, Call.registryServiceInfo, Call.sleep p.sleepTime],
                rfl, ?_, Or.inl rfl, ?_, Or.inl ⟨rfl, ?_, ?_⟩⟩
              · intro c hc
                simp only [List.mem_cons, List.not_mem_nil, or_false] at hc
                rcases hc with rfl | rfl | rfl <;> simp
              · intro hf; rw [hempty] at hf; simp at hf
              · simp [countSleeps_cons, countSleeps_nil]
              · simp [countSleeps_cons, countSleeps_nil]
  · rw [if_neg hempty] at hres
    obtain ⟨extra3, hcalls, hexc, hreg3, hparams3, hout3⟩ := asyncActStep3_spec p s e acc
    rw [hres] at hcalls hreg3 hparams3 hout3
    dsimp only [] at hcalls hreg3 hparams3 hout3
    right
    exact ⟨extra3, hcalls, fun c hc => (hexc c hc).1, hparams3,
      fun _ => ⟨hreg3, fun c hc => ⟨(hexc c hc).2.1, (hexc c hc).2.2⟩⟩, hout3⟩

/-- C7: re-entrancy of the startup behaviour — when the local Tendermint
parameters are already cached (a non-empty dictionary), a re-entry of
`async_act` issues no configuration fetch and the cache survives the entry
non-empty, so the fetch is never repeated; when registered addresses are
already recorded, a re-entry issues no registry verification and no
service-info query, and the recorded addresses are unchanged. -/
theorem startup_steps_not_repeated (p : RegParams) (s : BehaviourState) (e : Env) :
    (∀ tp, s.localTendermintParams = some tp → tp ≠ [] →
      Call.tmConfigFetch ∉ (asyncAct p s e).2.1
      ∧ ∃ tp', (asyncAct p s e).1.localTendermintParams = some tp' ∧ tp' ≠ [])
    ∧ (s.registeredAddresses ≠ [] →
      Call.registryVerify ∉ (asyncAct p s e).2.1
      ∧ Call.registryServiceInfo ∉ (asyncAct p s e).2.1
      ∧ (asyncAct p s e).1.registeredAddresses = s.registeredAddresses) := by
  constructor
  · intro tp htp hne
    have hie : tp.isEmpty = false := by
      cases tp with
      | nil => exact absurd rfl hne
      | cons a l => rfl
    have hred : asyncAct p s e = asyncActStep2 p s e [] := by
      unfold asyncAct
      rw [htp]
      dsimp only []
      rw [hie]
      rfl
    rw [hred]
    rcases asyncActStep2_spec p s e [] with ⟨h1, h2, h3⟩ | ⟨extra, hcalls, hexc, hparams, hregimp, hout⟩
    · rw [h3]
      refine ⟨by simp, tp, htp, hne⟩
    · constructor
      · rw [hcalls]
        intro hmem
        rw [List.nil_append] at hmem
        exact hexc _ hmem rfl
      · rcases hparams with heq | ⟨tp', htp', hne'⟩
        · exact ⟨tp, heq.trans htp, hne⟩
        · exact ⟨tp', htp', hne'⟩
  · intro hreg
    have hie : s.registeredAddresses.isEmpty = false := by
      cases hsr : s.registeredAddresses with
      | nil => exact absurd hsr hreg
      | cons a l => rfl
    by_cases hnf : (match s.localTendermintParams with
        | none => true
        | some tp => tp.isEmpty) = true
    · cases hcfg : e.tmConfigResult with
      | none =>
        have hred : asyncAct p s e =
            (s, [Call.tmConfigFetch, Call.sleep p.sleepTime], .returned) := by
          unfold asyncAct
          dsimp only []
          rw [hnf, hcfg]
          rfl
        rw [hred]
        refine ⟨?_, ?_, rfl⟩
        · intro hmem
          simp only [List.mem_cons, List.not_mem_nil, or_false] at hmem
          rcases hmem with h | h <;> simp at h
        · intro hmem
          simp only [List.mem_cons, List.not_mem_nil, or_false] at hmem
          rcases hmem with h | h <;> simp at h
      | some tp =>
        have hred : asyncAct p s e =
            asyncActStep2 p { s with localTendermintParams := some tp } e
              [Call.tmConfigFetch] := by
          unfold asyncAct
          dsimp only []
          rw [hnf, hcfg]
          rfl
        rw [hred]
        rcases asyncActStep2_spec p { s with localTendermintParams := some tp } e
            [Call.tmConfigFetch] with ⟨h1, h2, h3⟩ | ⟨extra, hcalls, hexc, hparams, hregimp, hout⟩
        · rw [hie] at h1
          simp at h1
        · obtain ⟨hpres, hexcl⟩ := hregimp hie
          refine ⟨?_, ?_, hpres⟩
          · rw [hcalls]
            intro hmem
            rcases List.mem_append.mp hmem with h | h
            · simp only [List.mem_cons, List.not_mem_nil, or_false] at h
              simp at h
            · exact (hexcl _ h).1 rfl
          · rw [hcalls]
            intro hmem
            rcases List.mem_append.mp hmem with h | h
            · simp only [List.mem_cons, List.not_mem_nil, or_false] at h
              simp at h
            · exact (hexcl _ h).2 rfl
    · have hred : asyncAct p s e = asyncActStep2 p s e [] := by
        unfold asyncAct
        dsimp only []
        rw [Bool.of_not_eq_true hnf]
        rfl
      rw [hred]
      rcases asyncActStep2_spec p s e [] with ⟨h1, h2, h3⟩ | ⟨extra, hcalls, hexc, hparams, hregimp, hout⟩
      · rw [hie] at h1
        simp at h1
      · obtain ⟨hpres, hexcl⟩ := hregimp hie
        refine ⟨?_, ?_, hpres⟩
        · rw [hcalls]
          intro hmem
          rw [List.nil_append] at hmem
          exact (hexcl _ hmem).1 rfl
        · rw [hcalls]
          intro hmem
          rw [List.nil_append] at hmem
          exact (hexcl _ hmem).2 rfl

/-- Concrete skill parameters for instantiating the behaviour theorems. -/
def pW : RegParams :=
  { tendermintComUrl := "http://localhost:8080",
    tendermintUrl := "http://localhost:26657",
    serviceRegistryAddr := some "0xregistry",
    onChainServiceId := 1,
    sleepTime := 1,
    agentAddress := "me" }

/-- Concrete behaviour state in which both expensive startup steps have
already completed and all peer information has been collected. -/
def sW : BehaviourState :=
  { localTendermintParams := some [("proxy_app", "tcp://0.0.0.0:26658")],
    collected := [("me", "info"), ("other", "info")],
    registeredAddresses := [("me", some "http://localhost:26657"), ("other", none)] }

/-- Concrete environment in which the Tendermint restart response fails to
decode while everything before it succeeds. -/
def eW : Env :=
  { tmConfigResult := none,
    verifyResult := some true,
    serviceInfo := some ["me", "other"],
    updateStatus := some 200,
    startStatus := none }

/-- Witness for C7 at a concrete input: with cached parameters no
configuration fetch is issued. -/
theorem startup_steps_not_repeated_witness :
    Call.tmConfigFetch ∉ (asyncAct pW sW eW).2.1 :=
  ((startup_steps_not_repeated pW sW eW).1
    [("proxy_app", "tcp://0.0.0.0:26658")] rfl (by decide)).1

/-- C8 counterexample: when the final `/start` call of the startup
sequence returns a malformed body, the entry performs two sleeps of
`sleep_time` — one inside `start_tendermint` and one more in `async_act` —
not exactly one. -/
theorem start_failure_sleeps_twice :
    (asyncAct pW sW eW).2.2 = .returned
    ∧ countSleeps pW.sleepTime (asyncAct pW sW eW).2.1 = 2 := ⟨rfl, rfl⟩

/-- C8 amended: with a configured registry address, no entry of
`async_act` ends in an escaped exception; every early return caused by a
failed step performs at least one and at most two sleeps of `sleep_time`
(two exactly when the Tendermint restart fails, which sleeps once in the
helper and once more in `async_act`); a completed entry performs none. -/
theorem external_failures_sleep_and_return (p : RegParams) (s : BehaviourState)
    (e : Env) (hreg : p.serviceRegistryAddr ≠ none) :
    (asyncAct p s e).2.2 ≠ .crashed
    ∧ ((asyncAct p s e).2.2 = .returned →
        1 ≤ countSleeps p.sleepTime (asyncAct p s e).2.1
        ∧ countSleeps p.sleepTime (asyncAct p s e).2.1 ≤ 2)
    ∧ ((asyncAct p s e).2.2 = .completed →
        countSleeps p.sleepTime (asyncAct p s e).2.1 = 0) := by
  have haddr : p.serviceRegistryAddr.isNone = false := by
    cases hx : p.serviceRegistryAddr with
    | none => exact absurd hx hreg
    | some a => rfl
  have main : ∀ (s' : BehaviourState) (acc : List Call),
      countSleeps p.sleepTime acc = 0 →
      (asyncActStep2 p s' e acc).2.2 ≠ .crashed
      ∧ ((asyncActStep2 p s' e acc).2.2 = .returned →
          1 ≤ countSleeps p.sleepTime (asyncActStep2 p s' e acc).2.1
          ∧ countSleeps p.sleepTime (asyncActStep2 p s' e acc).2.1 ≤ 2)
      ∧ ((asyncActStep2 p s' e acc).2.2 = .completed →
          countSleeps p.sleepTime (asyncActStep2 p s' e acc).2.1 = 0) := by
    intro s' acc hacc
    rcases asyncActStep2_spec p s' e acc with ⟨h1, h2, h3⟩ | ⟨extra, hcalls, hexc, hparams, hregimp, hout⟩
    · rw [haddr] at h2
      simp at h2
    · rw [hcalls, countSleeps_append, hacc]
      rcases hout with ⟨ho, hlo, hhi⟩ | ⟨ho, hz⟩
      · rw [ho]
        refine ⟨by simp, fun _ => ⟨by omega, by omega⟩, fun hc => by simp at hc⟩
      · rw [ho]
        refine ⟨by simp, fun hc => by simp at hc, fun _ => by omega⟩
  by_cases hnf : (match s.localTendermintParams with
      | none => true
      | some tp => tp.isEmpty) = true
  · cases hcfg : e.tmConfigResult with
    | none =>
      have hred : asyncAct p s e =
          (s, [Call.tmConfigFetch, Call.sleep p.sleepTime], .returned) := by
        unfold asyncAct
        dsimp only []
        rw [hnf, hcfg]
        rfl
      rw [hred]
      refine ⟨by simp, fun _ => ?_, fun hc => by simp at hc⟩
      constructor <;> simp [countSleeps_cons, countSleeps_nil]
    | some tp =>
      have hred : asyncAct p s e =
          asyncActStep2 p { s with localTendermintParams := some tp } e
            [Call.tmConfigFetch] := by
        unfold asyncAct
        dsimp only []
        rw [hnf, hcfg]
        rfl
      rw [hred]
      exact main _ _ (by simp [countSleeps_cons, countSleeps_nil])
  · have hred : asyncAct p s e = asyncActStep2 p s e [] := by
      unfold asyncAct
      dsimp only []
      rw [Bool.of_not_eq_true hnf]
      rfl
    rw [hred]
    exact main _ _ rfl

/-- Witness for the amended C8 at a concrete input: a failed restart entry
ends in a normal return, not a crash. -/
theorem external_failures_sleep_and_return_witness :
    (asyncAct pW sW eW).2.2 ≠ Outcome.crashed :=
  (external_failures_sleep_and_return pW sW eW (by decide)).1
